import Mathlib

/-!
# Verification of the `minterpolate` keyframe interpolation library

This file is a shallow embedding, in Lean 4, of the Rust crate
`minterpolate` (keyframe data-set interpolation), together with proofs
about the embedded functions.

## Modelling conventions

* Rust `f32` scalars are modelled as elements of a `LinearOrderedField`
  (instantiated at `ℝ`, and at `ℚ` where convenient).  Floating point
  literals appearing in the source are modelled as the exact rational
  they denote in decimal.  The model has no NaN: comparisons are total,
  which corresponds to the NaN-free preconditions stated in the
  specification, and makes the `partial_cmp(..).unwrap()` calls of the
  source total as well.
* Panics (out-of-bounds slice indexing, `usize` subtraction overflow)
  are modelled by `Option`: a function that can panic returns `none` in
  exactly the situations where the Rust code would abort.  Indexing
  `slice[i]` is modelled by `List.get? i` (`none` = index panic), and
  the `usize` expression `i - 1` is modelled as `none` when `i = 0`
  (debug-build overflow panic).
* `<[f32]>::binary_search_by(|v| v.partial_cmp(&input).unwrap())` is a
  Rust standard-library call (not crate code); it is modelled through
  its documented contract, specialised to the sorted, NaN-free slices
  the crate requires: `Sum.inl i` ("`Ok(i)`") when `inputs[i] == input`
  and `Sum.inr j` ("`Err(j)`") where `j` is the insertion point, i.e.
  the index of the first element `> input` (or the length if every
  element is smaller).
* The external trigonometric and square-root routines (`f32::sin`,
  `f32::acos`, `f32::sqrt`) are taken as parameters of the embedded
  functions and instantiated with `Real.sin`, `Real.arccos`,
  `Real.sqrt` in the theorems that are stated over `ℝ`.
-/

namespace Minterpolate

/-- The `InterpolationPrimitive` trait of `src/primitive.rs`, as a record
of the operations a primitive type `T` with scalar type `K` provides. -/
structure Prim (K T : Type) where
  add : T → T → T
  sub : T → T → T
  mul : T → K → T
  dot : T → T → K
  magnitude2 : T → K
  magnitude : T → K
  normalize : T → T

/-- Builds a `Prim` from the four required operations, deriving
`magnitude2 = dot self self`, `magnitude = sqrt magnitude2` and
`normalize = mul (1 / magnitude)` exactly as the vector instances of the
trait do (`magnitude2` is defined as `self.dot(self)` in every vector
impl, and `magnitude`/`normalize` use the trait defaults). -/
def mkPrim {K T : Type} [DivisionRing K] (add sub : T → T → T) (mul : T → K → T)
    (dot : T → T → K) (sqrt : K → K) : Prim K T :=
  { add := add
    sub := sub
    mul := mul
    dot := dot
    magnitude2 := fun v => dot v v
    magnitude := fun v => sqrt (dot v v)
    normalize := fun v => mul v (1 / sqrt (dot v v)) }

/-- A three-component vector (the `mint::Vector3<f32>` / `[f32; 3]`
primitives). -/
structure Vec3 (K : Type) where
  x : K
  y : K
  z : K
deriving DecidableEq

/-- A four-component vector (the `mint::Quaternion<f32>` / `[f32; 4]`
primitives, with `a` the scalar part). -/
structure Vec4 (K : Type) where
  a : K
  b : K
  c : K
  d : K
deriving DecidableEq

/-- `impl InterpolationPrimitive for Vector3<f32>` (componentwise add,
sub, scale, and the euclidean dot product), with the trait-default
magnitude and normalize built from the external `sqrt`. -/
def vec3Prim {K : Type} [LinearOrderedField K] (sqrt : K → K) : Prim K (Vec3 K) :=
  mkPrim
    (fun a b => ⟨a.x + b.x, a.y + b.y, a.z + b.z⟩)
    (fun a b => ⟨a.x - b.x, a.y - b.y, a.z - b.z⟩)
    (fun a s => ⟨a.x * s, a.y * s, a.z * s⟩)
    (fun a b => a.x * b.x + a.y * b.y + a.z * b.z)
    sqrt

/-- `impl InterpolationPrimitive for Quaternion<f32>` / `[f32; 4]`
(componentwise operations and 4-dimensional dot product), with the
trait-default magnitude and normalize built from the external `sqrt`. -/
def vec4Prim {K : Type} [LinearOrderedField K] (sqrt : K → K) : Prim K (Vec4 K) :=
  mkPrim
    (fun p q => ⟨p.a + q.a, p.b + q.b, p.c + q.c, p.d + q.d⟩)
    (fun p q => ⟨p.a - q.a, p.b - q.b, p.c - q.c, p.d - q.d⟩)
    (fun p s => ⟨p.a * s, p.b * s, p.c * s, p.d * s⟩)
    (fun p q => p.a * q.a + p.b * q.b + p.c * q.c + p.d * q.d)
    sqrt

/-- `impl InterpolationPrimitive for f32`: scalar arithmetic, with
`magnitude` the identity and `normalize` the identity (as the source
overrides both defaults for plain scalars). -/
def scalarPrim (K : Type) [LinearOrderedField K] : Prim K K :=
  { add := fun a b => a + b
    sub := fun a b => a - b
    mul := fun a s => a * s
    dot := fun a b => a * b
    magnitude2 := fun v => v * v
    magnitude := fun v => v
    normalize := fun v => v }

/-- Model of `inputs.binary_search_by(|v| v.partial_cmp(&input).unwrap())`
by the documented contract of `slice::binary_search_by`, specialised to
the sorted slices the crate requires: `Sum.inl i` is `Ok(i)` (element
`i` compares equal to `x`), `Sum.inr j` is `Err(j)` with `j` the
insertion point. -/
def bsearchAux {K : Type} [LinearOrder K] (x : K) : List K → Nat ⊕ Nat
  | [] => Sum.inr 0
  | a :: l =>
    if x ≤ a then (if a = x then Sum.inl 0 else Sum.inr 0)
    else
      match bsearchAux x l with
      | Sum.inl i => Sum.inl (i + 1)
      | Sum.inr i => Sum.inr (i + 1)

/-- The expression `binary_search_by(..).unwrap_or_else(|index| index - 1)`
shared by all interpolators.  `index - 1` is a `usize` subtraction: when
the search yields `Err(0)` the subtraction overflows and the program
panics (`none`). -/
def searchLowerIndex {K : Type} [LinearOrder K] (x : K) (xs : List K) : Option Nat :=
  match bsearchAux x xs with
  | Sum.inl i => some i
  | Sum.inr 0 => none
  | Sum.inr (i + 1) => some i

/-- `get_input_index` of `src/lib.rs`.  The outer `Option` is the panic
monad (indexing an empty slice, or the `index - 1` overflow); the inner
`Option` is the `Option<usize>` the Rust function returns. -/
def get_input_index {K : Type} [LinearOrder K] (x : K) (xs : List K) :
    Option (Option Nat) :=
  match xs.get? 0 with
  | none => none
  | some t0 =>
    if x < t0 then some none
    else (searchLowerIndex x xs).map some

/-- `step_interpolate` of `src/step.rs`.  The `normalize` flag is bound
but unused, exactly as in the source (`_: bool`). -/
def step_interpolate {K T : Type} [LinearOrder K] (input : K) (inputs : List K)
    (outputs : List T) (_normalize : Bool) : Option T :=
  match get_input_index input inputs with
  | none => none
  | some none => outputs.get? 0
  | some (some i) =>
    if inputs.length - 1 ≤ i then outputs.get? (outputs.length - 1)
    else outputs.get? i

/-- `linear_interpolate` of `src/linear.rs`. -/
def linear_interpolate {K T : Type} [LinearOrderedField K] (P : Prim K T) (input : K)
    (inputs : List K) (outputs : List T) (normalize : Bool) : Option T :=
  match inputs.get? 0 with
  | none => none
  | some t0 =>
    if input < t0 then outputs.get? 0
    else
      match searchLowerIndex input inputs with
      | none => none
      | some i =>
        if inputs.length - 1 ≤ i then outputs.get? (outputs.length - 1)
        else
          match inputs.get? i, inputs.get? (i + 1), outputs.get? i, outputs.get? (i + 1) with
          | some ti, some ti1, some left, some right =>
            let d := (input - ti) / (ti1 - ti)
            let v := P.add left (P.mul (P.sub right left) d)
            some (if normalize then P.normalize v else v)
          | _, _, _, _ => none

/-- `spherical_linear_interpolate` of `src/spherical_linear.rs`, with
the external `f32` routines `sin` and `acos` as parameters.  The
threshold `cast(0.9995f32)` is modelled as the rational `9995/10000`,
and `theta.sin().recip()` as multiplication by the field inverse. -/
def spherical_linear_interpolate {K T : Type} [LinearOrderedField K] (P : Prim K T)
    (sin arccos : K → K) (input : K) (inputs : List K) (outputs : List T)
    (normalize : Bool) : Option T :=
  match inputs.get? 0 with
  | none => none
  | some t0 =>
    if input < t0 then outputs.get? 0
    else
      match searchLowerIndex input inputs with
      | none => none
      | some i =>
        if inputs.length - 1 ≤ i then outputs.get? (outputs.length - 1)
        else
          match inputs.get? i, inputs.get? (i + 1), outputs.get? i, outputs.get? (i + 1) with
          | some ti, some ti1, some left, some right =>
            let d := (input - ti) / (ti1 - ti)
            let dot := P.dot left right
            let v :=
              if 9995 / 10000 < dot then P.add left (P.mul (P.sub right left) d)
              else
                let r_dot := if 1 < dot then 1 else if dot < -1 then -1 else dot
                let theta := arccos r_dot
                let scale1 := sin (theta * (1 - d))
                let scale2 := sin (theta * d)
                P.mul (P.add (P.mul left scale1) (P.mul right scale2)) (sin theta)⁻¹
            some (if normalize then P.normalize v else v)
          | _, _, _, _ => none

/-- `const WARP_ATTENUATION: f32 = 0.82279687` of
`src/quasi_spherical_linear.rs`. -/
def WARP_ATTENUATION (K : Type) [DivisionRing K] : K := 82279687 / 100000000

/-- `const WARP_WORST_CASE_SLOPE: f32 = 0.58549219` of
`src/quasi_spherical_linear.rs`. -/
def WARP_WORST_CASE_SLOPE (K : Type) [DivisionRing K] : K := 58549219 / 100000000

/-- `counter_warp` of `src/quasi_spherical_linear.rs`:
`2*k*d^2 - 3*k*d + k + 1` with
`k = WARP_WORST_CASE_SLOPE * (1 - WARP_ATTENUATION * cos_alpha)^2`. -/
def counter_warp {K : Type} [LinearOrderedField K] (d cos_alpha : K) : K :=
  let factor := 1 - WARP_ATTENUATION K * cos_alpha
  let k := WARP_WORST_CASE_SLOPE K * factor * factor
  2 * k * d * d - 3 * k * d + k + 1

/-- `const ISQRT_NEIGHBOURHOOD: f32 = 0.959066`. -/
def ISQRT_NEIGHBOURHOOD (K : Type) [DivisionRing K] : K := 959066 / 1000000

/-- `const ISQRT_NEIGHBOURHOOD_SQRT: f32 = 0.97931916`. -/
def ISQRT_NEIGHBOURHOOD_SQRT (K : Type) [DivisionRing K] : K := 97931916 / 100000000

/-- `const ISQRT_SCALE: f32 = 1.000311`. -/
def ISQRT_SCALE (K : Type) [DivisionRing K] : K := 1000311 / 1000000

/-- `const ISQRT_ADDITIVE_CONSTANT = ISQRT_SCALE / ISQRT_NEIGHBOURHOOD_SQRT`. -/
def ISQRT_ADDITIVE_CONSTANT (K : Type) [DivisionRing K] : K :=
  ISQRT_SCALE K / ISQRT_NEIGHBOURHOOD_SQRT K

/-- `const ISQRT_FACTOR = ISQRT_SCALE * (-0.5 / (ISQRT_NEIGHBOURHOOD *
ISQRT_NEIGHBOURHOOD_SQRT))`. -/
def ISQRT_FACTOR (K : Type) [DivisionRing K] : K :=
  ISQRT_SCALE K * (-(5 / 10) / (ISQRT_NEIGHBOURHOOD K * ISQRT_NEIGHBOURHOOD_SQRT K))

/-- `isqrt_approx_in_neighbourhood` of `src/quasi_spherical_linear.rs`:
tangent-line approximation of `1/sqrt(s)` around `ISQRT_NEIGHBOURHOOD`. -/
def isqrt_approx_in_neighbourhood {K : Type} [LinearOrderedField K] (s : K) : K :=
  ISQRT_ADDITIVE_CONSTANT K + (s - ISQRT_NEIGHBOURHOOD K) * ISQRT_FACTOR K

/-- `fast_normalize` of `src/quasi_spherical_linear.rs`: approximate
normalization by the tangent-line inverse square root with 0–2
refinement passes depending on the squared magnitude. -/
def fast_normalize {K T : Type} [LinearOrderedField K] (P : Prim K T) (v : T) : T :=
  let s := P.magnitude2 v
  let k0 := isqrt_approx_in_neighbourhood s
  let k :=
    if s ≤ 91521198 / 100000000 then
      let k1 := k0 * isqrt_approx_in_neighbourhood (k0 * k0 * s)
      if s ≤ 65211970 / 100000000 then k1 * isqrt_approx_in_neighbourhood (k1 * k1 * s)
      else k1
    else k0
  P.mul v k

/-- `quasi_spherical_linear_interpolate` of
`src/quasi_spherical_linear.rs`. -/
def quasi_spherical_linear_interpolate {K T : Type} [LinearOrderedField K] (P : Prim K T)
    (input : K) (inputs : List K) (outputs : List T) (normalize : Bool) : Option T :=
  match get_input_index input inputs with
  | none => none
  | some none => outputs.get? 0
  | some (some i) =>
    if inputs.length - 1 ≤ i then outputs.get? (outputs.length - 1)
    else
      match inputs.get? i, inputs.get? (i + 1), outputs.get? i, outputs.get? (i + 1) with
      | some ti, some ti1, some left, some right =>
        let d := (input - ti) / (ti1 - ti)
        let dot := P.dot left right
        let d_prime :=
          if d ≤ 5 / 10 then counter_warp d dot
          else 1 - counter_warp (1 - d) dot
        let v := P.add left (P.mul (P.sub right left) d_prime)
        some (if normalize then fast_normalize P v else v)
      | _, _, _, _ => none

/-- `spline` of `src/cubic_spline.rs`: the cubic Hermite basis blend,
with `t` renormalised to the active interval. -/
def spline {K T : Type} [LinearOrderedField K] (P : Prim K T) (t left_t t_diff : K)
    (p0 p1 m0 m1 : T) : T :=
  let d := (t - left_t) / t_diff
  let d2 := d * d
  let d3 := d2 * d
  P.add
    (P.add
      (P.add (P.mul p0 (2 * d3 - 3 * d2 + 1)) (P.mul m0 (d3 - 2 * d2 + d)))
      (P.mul p1 (-2 * d3 + 3 * d2)))
    (P.mul m1 (d3 - d2))

/-- `CubicSplineSetInterpolate::interpolate` of `src/cubic_spline.rs`.
There is no before-range guard in the source: a query below `inputs[0]`
makes the binary search return `Err(0)` and the `index - 1` subtraction
overflow (`none`).  `outputs.len() - 2` likewise overflows when the
output buffer has fewer than two elements. -/
def cubic_spline_interpolate {K T : Type} [LinearOrderedField K] (P : Prim K T)
    (input : K) (inputs : List K) (outputs : List T) (normalize : Bool) : Option T :=
  match searchLowerIndex input inputs with
  | none => none
  | some i =>
    if inputs.length - 1 ≤ i then
      if outputs.length < 2 then none else outputs.get? (outputs.length - 2)
    else
      match inputs.get? i, inputs.get? (i + 1) with
      | some ti, some ti1 =>
        let t_diff := ti1 - ti
        let left_index := i * 3
        let right_index := (i + 1) * 3
        match outputs.get? (left_index + 1), outputs.get? (right_index + 1),
            outputs.get? (left_index + 2), outputs.get? right_index with
        | some p0, some p1, some m0, some m1 =>
          let v := spline P input ti t_diff p0 p1 (P.mul m0 t_diff) (P.mul m1 t_diff)
          some (if normalize then P.normalize v else v)
        | _, _, _, _ => none
      | _, _ => none

/-- `catmull_tangent` of `src/catmull_rom_spline.rs`: boundary tangents
come from the explicit boundary slots, interior tangents are the
centered difference `(p[k+1] - p[k-1]) * (1 / (t[k+1] - t[k-1]))`.
`outputs.len() - 1` on an empty buffer would overflow (`none`). -/
def catmull_tangent {K T : Type} [LinearOrderedField K] (P : Prim K T) (index : Nat)
    (inputs : List K) (outputs : List T) : Option T :=
  let output_index := index + 1
  if index = 0 then outputs.get? 0
  else if index = inputs.length - 1 then
    if outputs.length = 0 then none else outputs.get? (outputs.length - 1)
  else
    match outputs.get? (output_index + 1), outputs.get? (output_index - 1),
        inputs.get? (index + 1), inputs.get? (index - 1) with
    | some pn, some pp, some tn, some tp => some (P.mul (P.sub pn pp) (1 / (tn - tp)))
    | _, _, _, _ => none

/-- `CatmullRomSplineSetInterpolate::interpolate` of
`src/catmull_rom_spline.rs`.  Like the cubic variant it has no
before-range guard, so a query below `inputs[0]` overflows `index - 1`
(`none`). -/
def catmull_rom_spline_interpolate {K T : Type} [LinearOrderedField K] (P : Prim K T)
    (input : K) (inputs : List K) (outputs : List T) (normalize : Bool) : Option T :=
  match searchLowerIndex input inputs with
  | none => none
  | some i =>
    if inputs.length - 1 ≤ i then
      if outputs.length < 2 then none else outputs.get? (outputs.length - 2)
    else
      match inputs.get? i, inputs.get? (i + 1), outputs.get? (i + 1), outputs.get? (i + 2),
          catmull_tangent P i inputs outputs, catmull_tangent P (i + 1) inputs outputs with
      | some ti, some ti1, some p0, some p1, some m0, some m1 =>
        let v := spline P input ti (ti1 - ti) p0 p1 m0 m1
        some (if normalize then P.normalize v else v)
      | _, _, _, _, _, _ => none

/-- The `InterpolationFunction<T>` selector enum of `src/lib.rs`; the
`Function` variant carries a caller-supplied function of the common
interpolator signature. -/
inductive InterpolationFunction (K T : Type) where
  | Linear
  | SphericalLinear
  | QuasiSphericalLinear
  | Step
  | CatmullRomSpline
  | CubicSpline
  | Function (f : K → List K → List T → Bool → Option T)

/-- The `PartialEq` implementation for `InterpolationFunction` of
`src/lib.rs`: same named variants compare equal, everything else —
including two `Function` variants — falls to the `_ => false` arm. -/
def interpEq {K T : Type} :
    InterpolationFunction K T → InterpolationFunction K T → Bool
  | .Linear, .Linear => true
  | .SphericalLinear, .SphericalLinear => true
  | .QuasiSphericalLinear, .QuasiSphericalLinear => true
  | .Step, .Step => true
  | .CatmullRomSpline, .CatmullRomSpline => true
  | .CubicSpline, .CubicSpline => true
  | _, _ => false

variable {K : Type} [LinearOrder K]

lemma chain'_head_lt_get? {a : K} {l : List K} {j : Nat} {t : K}
    (hc : List.Chain' (· < ·) (a :: l)) (hg : l.get? j = some t) : a < t := by
  induction l generalizing a j with
  | nil => simp at hg
  | cons b l' IH =>
    have hab : a < b := (List.chain'_cons.mp hc).1
    have hc' : List.Chain' (· < ·) (b :: l') := (List.chain'_cons.mp hc).2
    cases j with
    | zero =>
      simp only [List.get?_cons_zero, Option.some.injEq] at hg
      exact hg ▸ hab
    | succ j =>
      exact lt_trans hab (IH hc' hg)

lemma searchLowerIndex_cons {x a : K} {l : List K} {j : Nat}
    (h : ¬ x ≤ a) (hl : searchLowerIndex x l = some j) :
    searchLowerIndex x (a :: l) = some (j + 1) := by
  unfold searchLowerIndex at hl ⊢
  simp only [bsearchAux, if_neg h]
  cases hb : bsearchAux x l with
  | inl i =>
    rw [hb] at hl
    simp only [Option.some.injEq] at hl
    subst hl
    rfl
  | inr i =>
    rw [hb] at hl
    cases i with
    | zero => simp at hl
    | succ i =>
      simp only [Option.some.injEq] at hl
      subst hl
      rfl

lemma searchLowerIndex_interior {x : K} : ∀ {xs : List K} {i : Nat} {ti ti1 : K},
    List.Chain' (· < ·) xs → xs.get? i = some ti → xs.get? (i + 1) = some ti1 →
    ti ≤ x → x < ti1 → searchLowerIndex x xs = some i := by
  intro xs
  induction xs with
  | nil => intro i ti ti1 _ h0; simp at h0
  | cons a l IH =>
    intro i ti ti1 hc h0 h1 hle hlt
    cases i with
    | zero =>
      simp only [List.get?_cons_zero, Option.some.injEq] at h0
      subst h0
      simp only [List.get?_cons_succ] at h1
      by_cases hxa : x ≤ a
      · have hax : a = x := le_antisymm hle hxa
        unfold searchLowerIndex
        simp [bsearchAux, if_pos hxa, if_pos hax]
      · cases l with
        | nil => simp at h1
        | cons b l' =>
          simp only [List.get?_cons_zero, Option.some.injEq] at h1
          subst h1
          have hxb : x ≤ b := le_of_lt hlt
          have hbx : ¬ b = x := ne_of_gt hlt
          unfold searchLowerIndex
          simp [bsearchAux, if_neg hxa, if_pos hxb, if_neg hbx]
    | succ i =>
      simp only [List.get?_cons_succ] at h0 h1
      have hax : ¬ x ≤ a :=
        not_le.mpr (lt_of_lt_of_le (chain'_head_lt_get? hc h0) hle)
      exact searchLowerIndex_cons hax
        (IH ((List.chain'_cons'.mp hc).2) h0 h1 hle hlt)

lemma searchLowerIndex_last {x : K} : ∀ {xs : List K} {i : Nat} {ti : K},
    List.Chain' (· < ·) xs → xs.get? i = some ti → xs.length = i + 1 →
    ti ≤ x → searchLowerIndex x xs = some i := by
  intro xs
  induction xs with
  | nil => intro i ti _ h0; simp at h0
  | cons a l IH =>
    intro i ti hc h0 hlen hle
    cases i with
    | zero =>
      simp only [List.get?_cons_zero, Option.some.injEq] at h0
      subst h0
      simp only [List.length_cons, Nat.add_right_cancel_iff] at hlen
      have hnil : l = [] := List.length_eq_zero.mp hlen
      subst hnil
      by_cases hxa : x ≤ a
      · have hax : a = x := le_antisymm hle hxa
        unfold searchLowerIndex
        simp [bsearchAux, if_pos hxa, if_pos hax]
      · unfold searchLowerIndex
        simp [bsearchAux, if_neg hxa]
    | succ i =>
      simp only [List.get?_cons_succ] at h0
      simp only [List.length_cons, Nat.add_right_cancel_iff] at hlen
      have hax : ¬ x ≤ a :=
        not_le.mpr (lt_of_lt_of_le (chain'_head_lt_get? hc h0) hle)
      exact searchLowerIndex_cons hax
        (IH ((List.chain'_cons'.mp hc).2) h0 hlen hle)

lemma searchLowerIndex_total {x : K} : ∀ {xs : List K} {t0 : K},
    List.Chain' (· < ·) xs → xs.get? 0 = some t0 → t0 ≤ x →
    ∃ i ti, searchLowerIndex x xs = some i ∧ xs.get? i = some ti ∧ ti ≤ x ∧
      i < xs.length := by
  intro xs
  induction xs with
  | nil => intro t0 _ h0; simp at h0
  | cons a l IH =>
    intro t0 hc h0 hle
    simp only [List.get?_cons_zero, Option.some.injEq] at h0
    subst h0
    cases l with
    | nil =>
      refine ⟨0, a, ?_, rfl, hle, by simp⟩
      by_cases hxa : x ≤ a
      · have hax : a = x := le_antisymm hle hxa
        unfold searchLowerIndex
        simp [bsearchAux, if_pos hxa, if_pos hax]
      · unfold searchLowerIndex
        simp [bsearchAux, if_neg hxa]
    | cons b l' =>
      by_cases hxb : x < b
      · exact ⟨0, a, searchLowerIndex_interior hc rfl rfl hle hxb, rfl, hle, by simp⟩
      · have hbx : b ≤ x := not_lt.mp hxb
        have hc' : List.Chain' (· < ·) (b :: l') := (List.chain'_cons.mp hc).2
        obtain ⟨j, tj, hs, hg, hjle, hjlt⟩ := IH hc' rfl hbx
        have hax : ¬ x ≤ a := not_le.mpr (lt_of_lt_of_le (List.chain'_cons.mp hc).1 hbx)
        refine ⟨j + 1, tj, searchLowerIndex_cons hax hs, hg, hjle, ?_⟩
        simpa using Nat.succ_lt_succ hjlt

lemma searchLowerIndex_exact {x : K} : ∀ {xs : List K} {i : Nat},
    List.Chain' (· < ·) xs → xs.get? i = some x → searchLowerIndex x xs = some i := by
  intro xs
  induction xs with
  | nil => intro i _ h0; simp at h0
  | cons a l IH =>
    intro i hc h0
    cases i with
    | zero =>
      simp only [List.get?_cons_zero, Option.some.injEq] at h0
      subst h0
      unfold searchLowerIndex
      simp [bsearchAux]
    | succ i =>
      simp only [List.get?_cons_succ] at h0
      have hax : ¬ x ≤ a := not_le.mpr (chain'_head_lt_get? hc h0)
      exact searchLowerIndex_cons hax (IH ((List.chain'_cons'.mp hc).2) h0)

lemma head_le_get? {xs : List K} {t0 ti : K} {i : Nat}
    (hc : List.Chain' (· < ·) xs) (h0 : xs.get? 0 = some t0)
    (hi : xs.get? i = some ti) : t0 ≤ ti := by
  cases xs with
  | nil => simp at h0
  | cons a l =>
    simp only [List.get?_cons_zero, Option.some.injEq] at h0
    subst h0
    cases i with
    | zero =>
      simp only [List.get?_cons_zero, Option.some.injEq] at hi
      exact le_of_eq hi
    | succ i =>
      simp only [List.get?_cons_succ] at hi
      exact le_of_lt (chain'_head_lt_get? hc hi)

lemma get?_lt_length {T : Type} {l : List T} {i : Nat} {t : T}
    (h : l.get? i = some t) : i < l.length := by
  have := List.get?_eq_some.mp h
  exact this.1

lemma exists_get?_of_lt {T : Type} {l : List T} {i : Nat} (h : i < l.length) :
    ∃ t, l.get? i = some t :=
  ⟨l.get ⟨i, h⟩, List.get?_eq_get h⟩

lemma get_input_index_before {x t0 : K} {xs : List K}
    (h0 : xs.get? 0 = some t0) (hx : x < t0) :
    get_input_index x xs = some none := by
  simp only [get_input_index, h0]
  rw [if_pos hx]

lemma get_input_index_of_search {x t0 : K} {xs : List K} {i : Nat}
    (h0 : xs.get? 0 = some t0) (hx : ¬ x < t0)
    (hsi : searchLowerIndex x xs = some i) :
    get_input_index x xs = some (some i) := by
  simp only [get_input_index, h0]
  rw [if_neg hx, hsi]
  rfl

/-- **C1.** For every non-empty strictly-increasing (NaN-free) input
sequence and (non-NaN) query time, `get_input_index` returns `None`
exactly when the query time is strictly below `inputs[0]`; otherwise it
returns `Some i` with `inputs[i] ≤ time`; and when the query time equals
some `inputs[i]` exactly, it returns that index `i` (lower-bound tie
rule). -/
theorem get_input_index_lower_bound {K : Type} [LinearOrder K]
    (x : K) (xs : List K) (t0 : K)
    (hs : List.Chain' (· < ·) xs) (h0 : xs.get? 0 = some t0) :
    (get_input_index x xs = some none ↔ x < t0)
    ∧ (t0 ≤ x → ∃ i ti, get_input_index x xs = some (some i) ∧
        xs.get? i = some ti ∧ ti ≤ x)
    ∧ (∀ i, xs.get? i = some x → get_input_index x xs = some (some i)) := by
  refine ⟨⟨?_, fun hx => get_input_index_before h0 hx⟩, ?_, ?_⟩
  · intro h
    by_contra hx
    obtain ⟨i, ti, hsi, _, _, _⟩ := searchLowerIndex_total hs h0 (not_lt.mp hx)
    rw [get_input_index_of_search h0 hx hsi] at h
    simp at h
  · intro hx
    obtain ⟨i, ti, hsi, hg, hile, _⟩ := searchLowerIndex_total hs h0 hx
    exact ⟨i, ti, get_input_index_of_search h0 (not_lt.mpr hx) hsi, hg, hile⟩
  · intro i hi
    have hle : t0 ≤ x := head_le_get? hs h0 hi
    exact get_input_index_of_search h0 (not_lt.mpr hle) (searchLowerIndex_exact hs hi)

/-- Witness for C1: inputs `[0, 1, 2]`, query `1` (an exact keyframe
match) is located at index `1`. -/
theorem get_input_index_lower_bound_witness :
    List.Chain' (· < ·) ([0, 1, 2] : List ℚ) ∧
      get_input_index (1 : ℚ) ([0, 1, 2] : List ℚ) = some (some 1) := by
  have hc : List.Chain' (· < ·) ([0, 1, 2] : List ℚ) := by
    norm_num [List.chain'_cons]
  exact ⟨hc, (get_input_index_lower_bound 1 [0, 1, 2] 0 hc rfl).2.2 1 rfl⟩

/-- **C8.** For every query with an active interval `i`,
`step_interpolate` returns `outputs[i]` unchanged; at or past the last
keyframe it returns the last output; and its result is identical for
both values of the normalize flag. -/
theorem step_interpolate_spec {K T : Type} [LinearOrder K] (x : K)
    (inputs : List K) (outputs : List T)
    (hs : List.Chain' (· < ·) inputs) :
    (∀ i ti ti1 oi, inputs.get? i = some ti → inputs.get? (i + 1) = some ti1 →
      ti ≤ x → x < ti1 → outputs.get? i = some oi →
      ∀ b, step_interpolate x inputs outputs b = some oi)
    ∧ (∀ tl ol, inputs.get? (inputs.length - 1) = some tl → tl ≤ x →
      outputs.get? (outputs.length - 1) = some ol →
      ∀ b, step_interpolate x inputs outputs b = some ol)
    ∧ (∀ b b', step_interpolate x inputs outputs b =
        step_interpolate x inputs outputs b') := by
  refine ⟨?_, ?_, fun b b' => rfl⟩
  · intro i ti ti1 oi hti hti1 hle hlt hoi b
    obtain ⟨t0, h0⟩ :=
      exists_get?_of_lt (lt_of_le_of_lt (Nat.zero_le i) (get?_lt_length hti))
    have hsi := searchLowerIndex_interior hs hti hti1 hle hlt
    have ht0 : t0 ≤ x := (head_le_get? hs h0 hti).trans hle
    simp only [step_interpolate, get_input_index_of_search h0 (not_lt.mpr ht0) hsi]
    have hi1 : i + 1 < inputs.length := get?_lt_length hti1
    rw [if_neg (by omega), hoi]
  · intro tl ol htl hle hol b
    have hlast : inputs.length - 1 < inputs.length := get?_lt_length htl
    obtain ⟨t0, h0⟩ := exists_get?_of_lt (lt_of_le_of_lt (Nat.zero_le _) hlast)
    have hsi := searchLowerIndex_last hs htl (by omega) hle
    have ht0 : t0 ≤ x := (head_le_get? hs h0 htl).trans hle
    simp only [step_interpolate, get_input_index_of_search h0 (not_lt.mpr ht0) hsi]
    rw [if_pos (le_refl _), hol]

/-- Witness for C8: at query `3/2` in interval `1` of `[0, 1, 2]`,
`step_interpolate` holds the left keyframe value `20`. -/
theorem step_interpolate_spec_witness :
    List.Chain' (· < ·) ([0, 1, 2] : List ℚ) ∧
      step_interpolate ((3 : ℚ) / 2) [0, 1, 2] ([10, 20, 30] : List ℚ) true =
        some 20 := by
  have hc : List.Chain' (· < ·) ([0, 1, 2] : List ℚ) := by
    norm_num [List.chain'_cons]
  refine ⟨hc, ?_⟩
  exact (step_interpolate_spec ((3 : ℚ) / 2) [0, 1, 2] ([10, 20, 30] : List ℚ) hc).1
    1 1 2 20 rfl rfl (by norm_num) (by norm_num) rfl true

/-- **C10.** Under the NaN-free preconditions (non-empty strictly
increasing inputs, outputs of the same length), `get_input_index`,
`linear_interpolate` and `step_interpolate` are total: no panic branch
(`none`) is reachable. -/
theorem interpolators_total {K T : Type} [LinearOrderedField K] (P : Prim K T)
    (x : K) (inputs : List K) (outputs : List T) (t0 : K)
    (hs : List.Chain' (· < ·) inputs) (h0 : inputs.get? 0 = some t0)
    (hlen : outputs.length = inputs.length) :
    (∃ r, get_input_index x inputs = some r)
    ∧ (∀ b, ∃ v, linear_interpolate P x inputs outputs b = some v)
    ∧ (∀ b, ∃ v, step_interpolate x inputs outputs b = some v) := by
  have hpos : 0 < inputs.length := get?_lt_length h0
  obtain ⟨o0, ho0⟩ := exists_get?_of_lt (show 0 < outputs.length by omega)
  by_cases hx : x < t0
  · refine ⟨⟨none, get_input_index_before h0 hx⟩, ?_, ?_⟩
    · intro b
      refine ⟨o0, ?_⟩
      simp only [linear_interpolate, h0]
      rw [if_pos hx]
      exact ho0
    · intro b
      refine ⟨o0, ?_⟩
      simp only [step_interpolate, get_input_index_before h0 hx]
      exact ho0
  · have hle : t0 ≤ x := not_lt.mp hx
    obtain ⟨i, ti, hsi, hg, hile, hilt⟩ := searchLowerIndex_total hs h0 hle
    have hgi := get_input_index_of_search h0 hx hsi
    refine ⟨⟨some i, hgi⟩, ?_, ?_⟩
    · intro b
      simp only [linear_interpolate, h0]
      rw [if_neg hx]
      simp only [hsi]
      by_cases hpast : inputs.length - 1 ≤ i
      · rw [if_pos hpast]
        obtain ⟨ol, hol⟩ :=
          exists_get?_of_lt (show outputs.length - 1 < outputs.length by omega)
        exact ⟨ol, hol⟩
      · rw [if_neg hpast]
        obtain ⟨ti1, hti1⟩ :=
          exists_get?_of_lt (show i + 1 < inputs.length by omega)
        obtain ⟨p0, hp0⟩ := exists_get?_of_lt (show i < outputs.length by omega)
        obtain ⟨p1, hp1⟩ :=
          exists_get?_of_lt (show i + 1 < outputs.length by omega)
        rw [hg, hti1, hp0, hp1]
        exact ⟨_, rfl⟩
    · intro b
      simp only [step_interpolate, hgi]
      by_cases hpast : inputs.length - 1 ≤ i
      · rw [if_pos hpast]
        obtain ⟨ol, hol⟩ :=
          exists_get?_of_lt (show outputs.length - 1 < outputs.length by omega)
        exact ⟨ol, hol⟩
      · rw [if_neg hpast]
        obtain ⟨oi, hoi⟩ := exists_get?_of_lt (show i < outputs.length by omega)
        exact ⟨oi, hoi⟩

/-- Witness for C10 at a concrete input set. -/
theorem interpolators_total_witness :
    List.Chain' (· < ·) ([0, 1] : List ℚ) ∧
      (∃ r, get_input_index (7 : ℚ) ([0, 1] : List ℚ) = some r) ∧
      (∀ b, ∃ v, linear_interpolate (scalarPrim ℚ) 7 [0, 1] [4, 5] b = some v) ∧
      (∀ b, ∃ v, step_interpolate (7 : ℚ) [0, 1] ([4, 5] : List ℚ) b = some v) := by
  have hc : List.Chain' (· < ·) ([0, 1] : List ℚ) := by
    norm_num [List.chain'_cons]
  exact ⟨hc, interpolators_total (scalarPrim ℚ) 7 [0, 1] [4, 5] 0 hc rfl rfl⟩

/-- **C9.** Equality on the `InterpolationFunction` selector holds
exactly when both sides are the same named variant; two `Function`
variants compare unequal in every case, even when they hold the same
function value. -/
theorem interpEq_named_variants {K T : Type} :
    (∀ f : K → List K → List T → Bool → Option T,
      interpEq (.Function f) (.Function f) = false)
    ∧ (∀ f g : K → List K → List T → Bool → Option T,
      interpEq (.Function f) (.Function g) = false)
    ∧ (∀ a b : InterpolationFunction K T,
      interpEq a b = true ↔ (a = b ∧ ∀ f, a ≠ .Function f)) := by
  refine ⟨fun f => rfl, fun f g => rfl, fun a b => ?_⟩
  cases a <;> cases b <;> simp [interpEq]

/-- **C2.** For every interior interval query, the spherical-linear
interpolator computes `dot = p0·p1`; above the `0.9995` threshold it
returns the linear blend `p0 + (p1 - p0)·d`, otherwise it clamps `dot`
to `[-1, 1]`, takes `theta = acos(clamped)`, and returns
`(sin((1-d)·theta)·p0 + sin(d·theta)·p1) / sin(theta)` — `p1` is used
as stored in both branches, its sign is never flipped when `dot < 0`. -/
theorem spherical_linear_interior {T : Type} (P : Prim ℝ T)
    (x : ℝ) (inputs : List ℝ) (outputs : List T) (nm : Bool)
    (i : Nat) (ti ti1 : ℝ) (p0 p1 : T)
    (hs : List.Chain' (· < ·) inputs)
    (hti : inputs.get? i = some ti) (hti1 : inputs.get? (i + 1) = some ti1)
    (hp0 : outputs.get? i = some p0) (hp1 : outputs.get? (i + 1) = some p1)
    (hle : ti ≤ x) (hlt : x < ti1) :
    spherical_linear_interpolate P Real.sin Real.arccos x inputs outputs nm =
      some (
        let d := (x - ti) / (ti1 - ti)
        let dot := P.dot p0 p1
        let r_dot := if 1 < dot then 1 else if dot < -1 then -1 else dot
        let theta := Real.arccos r_dot
        let v :=
          if 9995 / 10000 < dot then P.add p0 (P.mul (P.sub p1 p0) d)
          else
            P.mul
              (P.add (P.mul p0 (Real.sin (theta * (1 - d))))
                (P.mul p1 (Real.sin (theta * d))))
              (Real.sin theta)⁻¹
        if nm then P.normalize v else v) := by
  obtain ⟨t0, h0⟩ :=
    exists_get?_of_lt (lt_of_le_of_lt (Nat.zero_le i) (get?_lt_length hti))
  have hx : ¬ x < t0 := not_lt.mpr ((head_le_get? hs h0 hti).trans hle)
  have hsi := searchLowerIndex_interior hs hti hti1 hle hlt
  have hi1 : i + 1 < inputs.length := get?_lt_length hti1
  simp only [spherical_linear_interpolate, h0]
  rw [if_neg hx]
  simp only [hsi]
  rw [if_neg (show ¬ inputs.length - 1 ≤ i by omega)]
  simp only [hti, hti1, hp0, hp1]

/-- Witness for C2: two scalar keyframes `[2, 5]` on `[0, 1]` at query
`1/2`; their dot product `10` is above the threshold, so the result is
the linear blend `7/2`. -/
theorem spherical_linear_interior_witness :
    List.Chain' (· < ·) ([0, 1] : List ℝ) ∧
      spherical_linear_interpolate (scalarPrim ℝ) Real.sin Real.arccos
        ((1 : ℝ) / 2) [0, 1] [2, 5] false = some (7 / 2) := by
  have hc : List.Chain' (· < ·) ([0, 1] : List ℝ) := by
    norm_num [List.chain'_cons]
  refine ⟨hc, ?_⟩
  refine (spherical_linear_interior (scalarPrim ℝ) ((1 : ℝ) / 2) [0, 1] [2, 5]
    false 0 0 1 2 5 hc rfl rfl rfl rfl (by norm_num) (by norm_num)).trans ?_
  norm_num [scalarPrim]

/-- **C4.** For every interior interval query with blend factor `d` and
width `dt = inputs[i+1] - inputs[i]`, the cubic Hermite interpolator
(triple layout `[in-tangent, position, out-tangent]`) returns
`p0·(2d³-3d²+1) + m0·(d³-2d²+d) + p1·(-2d³+3d²) + m1·(d³-d²)` with
`p0 = outputs[3i+1]`, `p1 = outputs[3(i+1)+1]`,
`m0 = outputs[3i+2]·dt` (left out-tangent rescaled) and
`m1 = outputs[3(i+1)]·dt` (right in-tangent rescaled), optionally
normalized. -/
theorem cubic_spline_interior {K T : Type} [LinearOrderedField K] (P : Prim K T)
    (x : K) (inputs : List K) (outputs : List T) (nm : Bool)
    (i : Nat) (ti ti1 : K) (p0 p1 m0 m1 : T)
    (hs : List.Chain' (· < ·) inputs)
    (hti : inputs.get? i = some ti) (hti1 : inputs.get? (i + 1) = some ti1)
    (hp0 : outputs.get? (i * 3 + 1) = some p0)
    (hp1 : outputs.get? ((i + 1) * 3 + 1) = some p1)
    (hm0 : outputs.get? (i * 3 + 2) = some m0)
    (hm1 : outputs.get? ((i + 1) * 3) = some m1)
    (hle : ti ≤ x) (hlt : x < ti1) :
    cubic_spline_interpolate P x inputs outputs nm =
      some (
        let dt := ti1 - ti
        let d := (x - ti) / dt
        let v :=
          P.add
            (P.add
              (P.add (P.mul p0 (2 * (d * d * d) - 3 * (d * d) + 1))
                (P.mul (P.mul m0 dt) (d * d * d - 2 * (d * d) + d)))
              (P.mul p1 (-2 * (d * d * d) + 3 * (d * d))))
            (P.mul (P.mul m1 dt) (d * d * d - d * d))
        if nm then P.normalize v else v) := by
  have hsi := searchLowerIndex_interior hs hti hti1 hle hlt
  have hi1 : i + 1 < inputs.length := get?_lt_length hti1
  simp only [cubic_spline_interpolate, hsi]
  rw [if_neg (show ¬ inputs.length - 1 ≤ i by omega)]
  simp only [hti, hti1, hp0, hp1, hm0, hm1, spline]

/-- Witness for C4: keyframes at `[0, 2]` with output triples
`[9, 1, 3, 7, 5, 11]`, query `1` (`d = 1/2`, `dt = 2`): the Hermite
blend of `p0 = 1`, `p1 = 5`, `m0 = 3·2`, `m1 = 7·2` is `2`. -/
theorem cubic_spline_interior_witness :
    List.Chain' (· < ·) ([0, 2] : List ℚ) ∧
      cubic_spline_interpolate (scalarPrim ℚ) (1 : ℚ) [0, 2]
        ([9, 1, 3, 7, 5, 11] : List ℚ) false = some 2 := by
  have hc : List.Chain' (· < ·) ([0, 2] : List ℚ) := by
    norm_num [List.chain'_cons]
  refine ⟨hc, ?_⟩
  refine (cubic_spline_interior (scalarPrim ℚ) (1 : ℚ) [0, 2]
    ([9, 1, 3, 7, 5, 11] : List ℚ) false 0 0 2 1 5 3 7 hc rfl rfl rfl rfl rfl rfl
    (by norm_num) (by norm_num)).trans ?_
  norm_num [scalarPrim]

/-- **C3 (failing-input evaluation).** At query time `inputs[0]` (blend
factor `d = 0`) the quasi-spherical-linear interpolator does not return
the left endpoint: `counter_warp 0 dot = k + 1` (the polynomial lacks
the leading factor `d`), so with orthogonal unit outputs (`dot = 0`,
`k = WARP_WORST_CASE_SLOPE`) it returns `p0 + (p1 - p0)·(k + 1) =
(-k, 1 + k, 0, 0)` instead of `p0 = (1, 0, 0, 0)`, which
`spherical_linear_interpolate` would return there.  (The `sqrt`
parameter of `vec4Prim` is irrelevant: with `normalize = false` the
quasi interpolator never invokes it.) -/
theorem quasi_endpoint_mismatch :
    quasi_spherical_linear_interpolate (vec4Prim (fun q => q)) (0 : ℚ) [0, 1]
        [⟨1, 0, 0, 0⟩, ⟨0, 1, 0, 0⟩] false =
      some ⟨-(58549219 / 100000000), 158549219 / 100000000, 0, 0⟩ ∧
    (⟨-(58549219 / 100000000), 158549219 / 100000000, 0, 0⟩ : Vec4 ℚ) ≠
      ⟨1, 0, 0, 0⟩ := by
  constructor
  · norm_num [quasi_spherical_linear_interpolate, get_input_index,
      searchLowerIndex, bsearchAux, counter_warp, WARP_ATTENUATION,
      WARP_WORST_CASE_SLOPE, vec4Prim, mkPrim]
  · intro h
    rw [Vec4.mk.injEq] at h
    norm_num at h

/-- **C7 (failing-input evaluation).** A query strictly below
`inputs[0]` reaches the unguarded binary search of the cubic spline
interpolator: the search yields `Err(0)` and the `usize` expression
`index - 1` overflows — a panic (`none`), not the first keyframe's
position `outputs[1]`. -/
theorem cubic_spline_before_range_panics :
    cubic_spline_interpolate (scalarPrim ℚ) (-1 : ℚ) [0, 1]
      ([1, 2, 3, 4, 5, 6] : List ℚ) false = none := by
  norm_num [cubic_spline_interpolate, searchLowerIndex, bsearchAux]

/-- **C5 (counterexample).** On the concrete Catmull-Rom scenario of the
claim (the crate's own test data), interpolation at `0.5` does not
return `(0.625, 0.625, 0.625)`: every y- and z-component of the buffer
is `0`, and the blend is componentwise.  (The `sqrt` parameter of
`vec3Prim` is irrelevant: with `normalize = false` it is never
invoked.) -/
theorem catmull_concrete_not_diagonal :
    catmull_rom_spline_interpolate (vec3Prim (fun q => q)) ((1 : ℚ) / 2)
        [0, 1, 2, 3, 4]
        [⟨1, 0, 0⟩, ⟨0, 0, 0⟩, ⟨1, 0, 0⟩, ⟨0, 0, 0⟩, ⟨-1, 0, 0⟩, ⟨0, 0, 0⟩,
          ⟨-1, 0, 0⟩] false ≠
      some ⟨5 / 8, 5 / 8, 5 / 8⟩ := by
  norm_num [catmull_rom_spline_interpolate, searchLowerIndex, bsearchAux,
    catmull_tangent, spline, vec3Prim, mkPrim]

/-- **C5 (amended).** On that scenario the Catmull-Rom interpolator
returns `(0.625, 0, 0)`: the interval is `[inputs[0], inputs[1]]` with
`d = 1/2`, `p0 = (0,0,0)`, `p1 = (1,0,0)`, the left tangent is the
explicit boundary slot `(1,0,0)` and the right tangent the centered
difference `(p2 - p0)/2 = (0,0,0)`. -/
theorem catmull_concrete_eval :
    catmull_rom_spline_interpolate (vec3Prim (fun q => q)) ((1 : ℚ) / 2)
        [0, 1, 2, 3, 4]
        [⟨1, 0, 0⟩, ⟨0, 0, 0⟩, ⟨1, 0, 0⟩, ⟨0, 0, 0⟩, ⟨-1, 0, 0⟩, ⟨0, 0, 0⟩,
          ⟨-1, 0, 0⟩] false =
      some ⟨5 / 8, 0, 0⟩ := by
  norm_num [catmull_rom_spline_interpolate, searchLowerIndex, bsearchAux,
    catmull_tangent, spline, vec3Prim, mkPrim]

/-- At blend factor `0` the componentwise linear blend returns the left
endpoint exactly. -/
lemma vec3_lerp_zero (sq : ℝ → ℝ) (p0 p1 : Vec3 ℝ) :
    (vec3Prim sq).add p0 ((vec3Prim sq).mul ((vec3Prim sq).sub p1 p0) 0) = p0 := by
  cases p0
  cases p1
  simp [vec3Prim, mkPrim]

/-- **C6 (counterexample).** With `normalize = true` the linear
interpolator does not return `outputs[0]` unchanged at query time
`inputs[0]`: for `outputs[0] = (2, 0, 0)` the blended value `(2, 0, 0)`
is renormalized to `(1, 0, 0)`. -/
theorem linear_normalize_alters_first_output :
    linear_interpolate (vec3Prim Real.sqrt) (0 : ℝ) [0, 1]
        [⟨2, 0, 0⟩, ⟨0, 0, 0⟩] true ≠ some ⟨2, 0, 0⟩ := by
  have h4 : Real.sqrt 4 = 2 := by
    rw [show (4 : ℝ) = 2 ^ 2 by norm_num]
    exact Real.sqrt_sq (by norm_num)
  norm_num [linear_interpolate, searchLowerIndex, bsearchAux, vec3Prim,
    mkPrim, h4]

/-- **C6 (amended).** At query time exactly `inputs[0]`:
`step_interpolate` returns `outputs[0]` for both values of the
normalize flag, and `linear_interpolate` and
`spherical_linear_interpolate` return `outputs[0]` exactly when
`normalize = false` (for the spherical variant under the additional
proviso `dot(outputs[0], outputs[1]) > -1`, which keeps `sin θ` nonzero
in the exact-arithmetic model; with `normalize = true` the linear and
spherical interpolators renormalize the value instead — see the
counterexample). -/
theorem endpoint_first_keyframe (sq : ℝ → ℝ) (inputs : List ℝ)
    (outputs : List (Vec3 ℝ)) (t0 : ℝ) (p0 : Vec3 ℝ)
    (hs : List.Chain' (· < ·) inputs) (h0 : inputs.get? 0 = some t0)
    (ho0 : outputs.get? 0 = some p0) (hlen : outputs.length = inputs.length)
    (hdot : ∀ p1, outputs.get? 1 = some p1 → -1 < (vec3Prim sq).dot p0 p1) :
    (∀ b, step_interpolate t0 inputs outputs b = some p0)
    ∧ linear_interpolate (vec3Prim sq) t0 inputs outputs false = some p0
    ∧ spherical_linear_interpolate (vec3Prim sq) Real.sin Real.arccos t0
        inputs outputs false = some p0 := by
  cases inputs with
  | nil => simp at h0
  | cons a l =>
    simp only [List.get?_cons_zero, Option.some.injEq] at h0
    subst h0
    have hnlt : ¬ a < a := lt_irrefl a
    have hsi : searchLowerIndex a (a :: l) = some 0 := by
      unfold searchLowerIndex
      simp [bsearchAux]
    have hgi : get_input_index a (a :: l) = some (some 0) :=
      get_input_index_of_search rfl hnlt hsi
    cases l with
    | nil =>
      have holen : outputs.length = 1 := by simpa using hlen
      have hlast : outputs.get? (outputs.length - 1) = some p0 := by
        rw [holen]
        exact ho0
      refine ⟨fun b => ?_, ?_, ?_⟩
      · simp only [step_interpolate, hgi]
        rw [if_pos (by simp)]
        exact hlast
      · simp only [linear_interpolate, List.get?_cons_zero]
        rw [if_neg hnlt]
        simp only [hsi]
        rw [if_pos (by simp)]
        exact hlast
      · simp only [spherical_linear_interpolate, List.get?_cons_zero]
        rw [if_neg hnlt]
        simp only [hsi]
        rw [if_pos (by simp)]
        exact hlast
    | cons b l' =>
      have hilen : ¬ (a :: b :: l').length - 1 ≤ 0 := by
        simp [List.length_cons]
      obtain ⟨p1, hp1⟩ : ∃ p1, outputs.get? 1 = some p1 :=
        exists_get?_of_lt (by rw [hlen]; simp [List.length_cons])
      have hd0 : (a - a) / (b - a) = 0 := by rw [sub_self, zero_div]
      refine ⟨fun bl => ?_, ?_, ?_⟩
      · simp only [step_interpolate, hgi]
        rw [if_neg hilen]
        exact ho0
      · simp only [linear_interpolate, List.get?_cons_zero]
        rw [if_neg hnlt]
        simp only [hsi]
        rw [if_neg hilen]
        simp only [List.get?_cons_zero, List.get?_cons_succ, ho0, hp1]
        simp only [hd0, Bool.false_eq_true, if_false, Option.some.injEq]
        exact vec3_lerp_zero sq p0 p1
      · simp only [spherical_linear_interpolate, List.get?_cons_zero]
        rw [if_neg hnlt]
        simp only [hsi]
        rw [if_neg hilen]
        simp only [List.get?_cons_zero, List.get?_cons_succ, ho0, hp1]
        simp only [hd0, Bool.false_eq_true, if_false, Option.some.injEq]
        by_cases hthr : (9995 : ℝ) / 10000 < (vec3Prim sq).dot p0 p1
        · rw [if_pos hthr]
          exact vec3_lerp_zero sq p0 p1
        · rw [if_neg hthr]
          have hd1 : -1 < (vec3Prim sq).dot p0 p1 := hdot p1 hp1
          have hd2 : ¬ (1 : ℝ) < (vec3Prim sq).dot p0 p1 := by
            have := not_lt.mp hthr
            intro hcon
            linarith
          have hd3 : ¬ (vec3Prim sq).dot p0 p1 < -1 := not_lt.mpr (le_of_lt hd1)
          rw [if_neg hd2, if_neg hd3]
          have hsin : Real.sin (Real.arccos ((vec3Prim sq).dot p0 p1)) ≠ 0 := by
            rw [Real.sin_arccos]
            have hlt1 : (vec3Prim sq).dot p0 p1 < 1 := by
              have := not_lt.mp hthr
              linarith
            have hpos : 0 < 1 - ((vec3Prim sq).dot p0 p1) ^ 2 := by nlinarith
            exact ne_of_gt (Real.sqrt_pos.mpr hpos)
          simp only [sub_zero, mul_one, mul_zero, Real.sin_zero]
          cases p0
          cases p1
          simp only [vec3Prim, mkPrim] at hsin ⊢
          rw [Vec3.mk.injEq]
          refine ⟨?_, ?_, ?_⟩ <;> field_simp

/-- Witness for the amended C6: inputs `[0, 1]`, `outputs[0] = (2,0,0)`,
`outputs[1] = (0,3,0)` (orthogonal, so `dot = 0 > -1`), query `0`. -/
theorem endpoint_first_keyframe_witness :
    List.Chain' (· < ·) ([0, 1] : List ℝ) ∧
      ((∀ b, step_interpolate (0 : ℝ) [0, 1]
          ([⟨2, 0, 0⟩, ⟨0, 3, 0⟩] : List (Vec3 ℝ)) b = some ⟨2, 0, 0⟩)
      ∧ linear_interpolate (vec3Prim Real.sqrt) (0 : ℝ) [0, 1]
          [⟨2, 0, 0⟩, ⟨0, 3, 0⟩] false = some ⟨2, 0, 0⟩
      ∧ spherical_linear_interpolate (vec3Prim Real.sqrt) Real.sin Real.arccos
          (0 : ℝ) [0, 1] [⟨2, 0, 0⟩, ⟨0, 3, 0⟩] false = some ⟨2, 0, 0⟩) := by
  have hc : List.Chain' (· < ·) ([0, 1] : List ℝ) := by
    norm_num [List.chain'_cons]
  refine ⟨hc, ?_⟩
  refine endpoint_first_keyframe Real.sqrt [0, 1] [⟨2, 0, 0⟩, ⟨0, 3, 0⟩] 0
    ⟨2, 0, 0⟩ hc rfl rfl rfl ?_
  intro p1 hp1
  simp only [List.get?_cons_succ, List.get?_cons_zero, Option.some.injEq] at hp1
  subst hp1
  norm_num [vec3Prim, mkPrim]

end Minterpolate
